import Mathlib

/-!
Verification of the Kurseduka-dl course downloader (src/main.py).

The development shallowly embeds the pure core of the program:
the filename sanitizer (`sanitize_filename`), the embedded-data
extractor (`extract_nextjs_json_data`, `extract_with_manual_parsing`,
`extract_course_data_specifically` with its three regex framings and
three decode strategies over a JSON parser), and the course structure
simplifier (`simplify_course_data`).

Python dynamic values are modelled by `PyVal` (strings as `List Char`);
Python operations that can raise (`in`, subscripting, `.get`, iteration)
return `Except PyErr _`, so partiality of the Python code is visible.
The regular expressions of the source are deterministic (literal
prefixes followed by a lazy or greedy capture up to a delimiter), and
are modelled by direct scanning functions with the same match semantics,
including `re.findall`'s left-to-right non-overlapping scan.
`json.loads` is modelled by an executable JSON parser over `List Char`
(integers only: no payload in this format carries floats; surrogate
pairs in \u escapes are not combined).
-/

/-- A Python dynamic value as produced by `json.loads`: `None`, booleans,
integers, strings, lists and (insertion-ordered) string-keyed dicts. -/
inductive PyVal where
  | none : PyVal
  | bool : Bool → PyVal
  | int : Int → PyVal
  | str : List Char → PyVal
  | list : List PyVal → PyVal
  | dict : List (List Char × PyVal) → PyVal

instance : Inhabited PyVal := ⟨PyVal.none⟩

/-- Python exceptions that the embedded fragments can raise. -/
inductive PyErr where
  | typeError : PyErr
  | keyError : PyErr
  | attributeError : PyErr
deriving DecidableEq

/-- Shorthand: a Python string value from a Lean string literal. -/
def pstr (s : String) : PyVal := PyVal.str s.data

/-- First-match association lookup in a Python dict (keys are unique). -/
def lookupKey : List (List Char × PyVal) → List Char → Option PyVal
  | [], _ => Option.none
  | (k0, v0) :: rest, k => if k0 = k then some v0 else lookupKey rest k

/-- Key membership in a Python dict. -/
def hasKey (kvs : List (List Char × PyVal)) (k : List Char) : Bool :=
  (lookupKey kvs k).isSome

/-- `d[k] = v` on a Python dict: replace in place or append. -/
def dictSet : List (List Char × PyVal) → List Char → PyVal → List (List Char × PyVal)
  | [], k, v => [(k, v)]
  | (k0, v0) :: rest, k, v =>
    if k0 = k then (k0, v) :: rest else (k0, v0) :: dictSet rest k v

/-- Does the Python value equal the given string under `==`?
(Python `==` between a `str` and a non-`str` is `False`.) -/
def pyIsStr (v : PyVal) (s : List Char) : Bool :=
  match v with
  | .str t => t = s
  | _ => false

/-- Python truthiness (`if result:`). -/
def pyTruthy : PyVal → Bool
  | .none => false
  | .bool b => b
  | .int n => n ≠ 0
  | .str s => !s.isEmpty
  | .list l => !l.isEmpty
  | .dict d => !d.isEmpty

/-- Does `pat` occur as a prefix of `l`? -/
def listStarts : List Char → List Char → Bool
  | [], _ => true
  | _ :: _, [] => false
  | p :: ps, c :: cs => p = c && listStarts ps cs

/-- Index of the first occurrence of `pat` as a sublist of `l`. -/
def findSub (pat : List Char) : List Char → Option Nat
  | [] => if pat.isEmpty then some 0 else Option.none
  | c :: t =>
    if listStarts pat (c :: t) then some 0
    else (findSub pat t).map (· + 1)

/-- Index of the last occurrence of `pat` as a sublist of `l`
(greedy `.*` backtracking finds the last occurrence of what follows). -/
def rfindSub (pat : List Char) : List Char → Option Nat
  | [] => if pat.isEmpty then some 0 else Option.none
  | c :: t =>
    match rfindSub pat t with
    | some i => some (i + 1)
    | Option.none => if listStarts pat (c :: t) then some 0 else Option.none

/-- Python `key in v`: dict key membership, list membership under `==`,
substring test on strings; `TypeError` on non-containers. -/
def pyInStr (k : List Char) (v : PyVal) : Except PyErr Bool :=
  match v with
  | .dict kvs => .ok (hasKey kvs k)
  | .list l => .ok (l.any (fun x => pyIsStr x k))
  | .str s => .ok (findSub k s).isSome
  | _ => .error .typeError

/-- Python `v[k]` with a string key: dict lookup (`KeyError` when the key is
missing); lists and strings reject string indices with `TypeError`, as do
scalars. -/
def pySubscript (v : PyVal) (k : List Char) : Except PyErr PyVal :=
  match v with
  | .dict kvs =>
    match lookupKey kvs k with
    | some x => .ok x
    | Option.none => .error .keyError
  | _ => .error .typeError

/-- Python `v.get(k, d)`: only dicts have `.get` (`AttributeError` otherwise). -/
def pyGet (v : PyVal) (k : List Char) (d : PyVal) : Except PyErr PyVal :=
  match v with
  | .dict kvs => .ok ((lookupKey kvs k).getD d)
  | _ => .error .attributeError

/-- Python `for x in v`: lists iterate elements, strings iterate one-character
strings, dicts iterate keys; other values raise `TypeError`. -/
def pyIter : PyVal → Except PyErr (List PyVal)
  | .list l => .ok l
  | .str s => .ok (s.map (fun c => .str [c]))
  | .dict kvs => .ok (kvs.map (fun kv => .str kv.1))
  | _ => .error .typeError

/-! ## Filename sanitizer (src/main.py lines 12-55) -/

/-- The characters replaced by `re.sub(r'[<>:\"/\\|?*]', '_', filename)`. -/
def invalidChar (c : Char) : Bool :=
  c = '<' || c = '>' || c = ':' || c = '\"' || c = '/' || c = '\\' ||
  c = '|' || c = '?' || c = '*'

/-- The character set of Python `filename.strip(' .')`. -/
def stripSet (c : Char) : Bool := c = ' ' || c = '.'

/-- Python `s.strip(set)`: drop the set's characters from both ends. -/
def pyStrip (p : Char → Bool) (l : List Char) : List Char :=
  ((l.dropWhile p).reverse.dropWhile p).reverse

/-- `re.sub(r'_+', '_', filename)`: collapse runs of underscores to one. -/
def collapseUnd : List Char → List Char
  | [] => []
  | [c] => [c]
  | a :: b :: rest =>
    if a = '_' && b = '_' then collapseUnd (b :: rest)
    else a :: collapseUnd (b :: rest)

/-- Python `s.rstrip('_')`: drop trailing underscores. -/
def rstripUnd (l : List Char) : List Char :=
  (l.reverse.dropWhile (fun c => c = '_')).reverse

/-- The Windows reserved device names of src/main.py lines 26-30. -/
def reservedNames : List (List Char) :=
  ["CON".data, "PRN".data, "AUX".data, "NUL".data,
   "COM1".data, "COM2".data, "COM3".data, "COM4".data, "COM5".data,
   "COM6".data, "COM7".data, "COM8".data, "COM9".data,
   "LPT1".data, "LPT2".data, "LPT3".data, "LPT4".data, "LPT5".data,
   "LPT6".data, "LPT7".data, "LPT8".data, "LPT9".data]

/-- Is the string (after `str.upper()`) one of the reserved device names?
`Char.toUpper` agrees with Python `str.upper` on every character that can
uppercase to a letter of the reserved names. -/
def isReservedName (l : List Char) : Bool :=
  decide ((l.map Char.toUpper) ∈ reservedNames)

/-- Line 34 of src/main.py: `filename` after invalid characters are
replaced with `_`. -/
def sanitizeStage1 (filename : List Char) : List Char :=
  filename.map (fun c => if invalidChar c then '_' else c)

/-- Line 37: then leading/trailing spaces and dots stripped. -/
def sanitizeStage2 (filename : List Char) : List Char :=
  pyStrip stripSet (sanitizeStage1 filename)

/-- Line 41: then runs of underscores collapsed. -/
def sanitizeStage3 (filename : List Char) : List Char :=
  collapseUnd (sanitizeStage2 filename)

/-- Lines 44-45: then reserved device names prefixed with `_`. -/
def sanitizeStage4 (filename : List Char) : List Char :=
  if isReservedName (sanitizeStage3 filename) then '_' :: sanitizeStage3 filename
  else sanitizeStage3 filename

/-- `sanitize_filename` of src/main.py lines 12-55: the four reassignment
stages above, then truncation to `max_length` with trailing underscores
stripped, then the `"untitled"` fallback when empty.  The Python default
for `max_length` is 100. -/
def sanitize_filename (filename : List Char) (max_length : Nat) : List Char :=
  let f4 := sanitizeStage4 filename
  let f5 := if f4.length > max_length then rstripUnd (f4.take max_length) else f4
  if f5.isEmpty then "untitled".data else f5

/-! ## JSON parser (model of Python `json.loads`)

Integers only (no payload of this wire format carries floats); strings
support the JSON escapes including `\uXXXX` for Unicode scalar values
(surrogate pairs are not combined); unescaped control characters are
rejected as in Python's strict mode; duplicate object keys keep the last
value, as Python dict insertion does. -/

/-- Skip JSON whitespace. -/
def skipWs (l : List Char) : List Char :=
  l.dropWhile (fun c => c = ' ' || c = '\t' || c = '\n' || c = '\r')

/-- Hex digit value (code points 0-9, a-f, A-F). -/
def hexVal (c : Char) : Option Nat :=
  let n := c.toNat
  if 48 ≤ n && n ≤ 57 then some (n - 48)
  else if 97 ≤ n && n ≤ 102 then some (n - 87)
  else if 65 ≤ n && n ≤ 70 then some (n - 55)
  else Option.none

/-- Parse the body of a JSON string (after the opening quote), decoding
escapes, returning the string and the input after the closing quote. -/
def jstring : Nat → List Char → Option (List Char × List Char)
  | 0, _ => Option.none
  | _ + 1, [] => Option.none
  | fuel + 1, c :: r =>
    if c = '\"' then some ([], r)
    else if c = '\\' then
      match r with
      | '\"' :: r2 => (jstring fuel r2).map (fun p => ('\"' :: p.1, p.2))
      | '\\' :: r2 => (jstring fuel r2).map (fun p => ('\\' :: p.1, p.2))
      | '/' :: r2 => (jstring fuel r2).map (fun p => ('/' :: p.1, p.2))
      | 'b' :: r2 => (jstring fuel r2).map (fun p => (Char.ofNat 8 :: p.1, p.2))
      | 'f' :: r2 => (jstring fuel r2).map (fun p => (Char.ofNat 12 :: p.1, p.2))
      | 'n' :: r2 => (jstring fuel r2).map (fun p => ('\n' :: p.1, p.2))
      | 'r' :: r2 => (jstring fuel r2).map (fun p => ('\r' :: p.1, p.2))
      | 't' :: r2 => (jstring fuel r2).map (fun p => ('\t' :: p.1, p.2))
      | 'u' :: h1 :: h2 :: h3 :: h4 :: r2 =>
        match hexVal h1, hexVal h2, hexVal h3, hexVal h4 with
        | some a, some b, some c3, some d =>
          let n := ((a * 16 + b) * 16 + c3) * 16 + d
          if n.isValidChar then
            (jstring fuel r2).map (fun p => (Char.ofNat n :: p.1, p.2))
          else Option.none
        | _, _, _, _ => Option.none
      | _ => Option.none
    else if c.toNat < 32 then Option.none
    else (jstring fuel r).map (fun p => (c :: p.1, p.2))

/-- Parse a JSON integer (sign and digits; floats are rejected, and a
leading zero may not be followed by further digits). -/
def jnumber (l : List Char) : Option (PyVal × List Char) :=
  let (neg, l1) := match l with
    | '-' :: r => (true, r)
    | _ => (false, l)
  let ds := l1.takeWhile Char.isDigit
  let rest := l1.drop ds.length
  if ds.isEmpty then Option.none
  else if ds.length > 1 && ds.headI = '0' then Option.none
  else
    match rest with
    | '.' :: _ => Option.none
    | 'e' :: _ => Option.none
    | 'E' :: _ => Option.none
    | _ =>
      let n : Nat := ds.foldl (fun acc d => 10 * acc + (d.toNat - 48)) 0
      some (.int (if neg then -(n : Int) else (n : Int)), rest)

mutual

/-- Parse one JSON value, returning it with the remaining input. -/
def jparse : Nat → List Char → Option (PyVal × List Char)
  | 0, _ => Option.none
  | fuel + 1, l =>
    match skipWs l with
    | [] => Option.none
    | c :: r =>
      if c = '\"' then (jstring fuel r).map (fun p => (.str p.1, p.2))
      else if c = '[' then
        match skipWs r with
        | ']' :: r2 => some (.list [], r2)
        | r2 => jarray fuel r2 []
      else if c = '\x7b' then
        match skipWs r with
        | '\x7d' :: r2 => some (.dict [], r2)
        | r2 => jobject fuel r2 []
      else if listStarts "true".data (c :: r) then some (.bool true, (c :: r).drop 4)
      else if listStarts "false".data (c :: r) then some (.bool false, (c :: r).drop 5)
      else if listStarts "null".data (c :: r) then some (.none, (c :: r).drop 4)
      else jnumber (c :: r)

/-- Parse the elements of a JSON array (after `[`, first element next). -/
def jarray : Nat → List Char → List PyVal → Option (PyVal × List Char)
  | 0, _, _ => Option.none
  | fuel + 1, l, acc =>
    match jparse fuel l with
    | some (v, r) =>
      match skipWs r with
      | ',' :: r2 => jarray fuel r2 (acc ++ [v])
      | ']' :: r2 => some (.list (acc ++ [v]), r2)
      | _ => Option.none
    | Option.none => Option.none

/-- Parse the members of a JSON object (after `\x7b`, first key next). -/
def jobject : Nat → List Char → List (List Char × PyVal) →
    Option (PyVal × List Char)
  | 0, _, _ => Option.none
  | fuel + 1, l, acc =>
    match skipWs l with
    | '\"' :: r =>
      match jstring fuel r with
      | some (k, r2) =>
        match skipWs r2 with
        | ':' :: r3 =>
          match jparse fuel r3 with
          | some (v, r4) =>
            match skipWs r4 with
            | ',' :: r5 => jobject fuel r5 (dictSet acc k v)
            | '\x7d' :: r5 => some (.dict (dictSet acc k v), r5)
            | _ => Option.none
          | Option.none => Option.none
        | _ => Option.none
      | Option.none => Option.none
    | _ => Option.none

end

/-- Model of `json.loads`: parse one value and require only whitespace
after it. -/
def json_loads (l : List Char) : Option PyVal :=
  match jparse (2 * l.length + 2) l with
  | some (v, r) => if (skipWs r).isEmpty then some v else Option.none
  | Option.none => Option.none

/-! ## Decode strategies (src/main.py lines 138-198) -/

/-- `process_b_format` (lines 169-179): on a `b:`-prefixed string, parse the
remainder as JSON; when it is a list of length at least 4, return its
element at index 3 (which may itself be any value, including `null`). -/
def process_b_format (s : List Char) : Option PyVal :=
  if listStarts "b:".data s then
    match json_loads (s.drop 2) with
    | some (.list parsed) =>
      if parsed.length ≥ 4 then parsed.get? 3 else Option.none
    | _ => Option.none
  else Option.none

/-- `process_direct_json` (lines 181-186): parse the string directly. -/
def process_direct_json (s : List Char) : Option PyVal :=
  json_loads s

/-- `process_array_format` (lines 188-198): parse `[` ++ s ++ `]`; when the
result has at least two elements and element 1 is a `b:`-prefixed string,
delegate to `process_b_format`; in every other case return `None`. -/
def process_array_format (s : List Char) : Option PyVal :=
  match json_loads ('[' :: (s ++ [']'])) with
  | some (.list array_data) =>
    if array_data.length ≥ 2 then
      match array_data.get? 1 with
      | some (.str json_string) =>
        if listStarts "b:".data json_string then process_b_format json_string
        else Option.none
      | _ => Option.none
    else Option.none
  | _ => Option.none

/-- One iteration of the loop of `process_match_string` (lines 156-165):
a `None` or falsy result contributes nothing, a list result is extended
element-wise into the accumulator, any other result is appended. -/
def approachResult (results : List PyVal) (r : Option PyVal) : List PyVal :=
  match r with
  | some v =>
    if pyTruthy v then
      match v with
      | .list l => results ++ l
      | _ => results ++ [v]
    else results
  | Option.none => results

/-- `process_match_string` (lines 138-167): try the three decode strategies
in order, accumulating their contributions. -/
def process_match_string (m : List Char) : List PyVal :=
  [process_b_format m, process_direct_json m, process_array_format m].foldl
    approachResult []

/-! ## Primary regex framings (src/main.py lines 114-136)

`re.findall` scans left to right; at each position it tries the pattern
and, on success, emits the capture and resumes after the match, otherwise
advances one character.  Each of the three patterns is a literal prefix
followed by a capture whose extent is determined by its first or maximal
viable delimiter, so matching at a position is deterministic. -/

/-- Generic `re.findall` scan: `step` attempts a match at the current
position, returning the capture and the input after the match. -/
def scanFindall (step : List Char → Option (List Char × List Char)) :
    Nat → List Char → List (List Char)
  | 0, _ => []
  | _ + 1, [] => []
  | fuel + 1, l =>
    match step l with
    | some (cap, rest) => cap :: scanFindall step fuel rest
    | Option.none => scanFindall step fuel l.tail

/-- Pattern 1, `self\.__next_f\.push\(\[1,"([^"]+)"\]\)`: after the literal
prefix, `[^"]+` must run to the character before the next quote (shorter
runs would require a quote to match a non-quote), and `"])` must follow. -/
def step1 (l : List Char) : Option (List Char × List Char) :=
  if listStarts "self.__next_f.push([1,\"".data l then
    let r := l.drop 23
    let cap := r.takeWhile (fun c => c ≠ '\"')
    let r2 := r.drop cap.length
    if !cap.isEmpty && listStarts "\"])".data r2 then some (cap, r2.drop 3)
    else Option.none
  else Option.none

/-- Pattern 2, `self\.__next_f\.push\(\[1,"(b:\[.*?\])"\]\)` with `re.DOTALL`:
the lazy `.*?\]` followed by `"\]\)` matches up to the first occurrence of
`]"])` after the literal prefix. -/
def step2 (l : List Char) : Option (List Char × List Char) :=
  if listStarts "self.__next_f.push([1,\"b:[".data l then
    let r := l.drop 26
    match findSub "]\"])".data r with
    | some i => some ("b:[".data ++ r.take i ++ [']'], r.drop (i + 4))
    | Option.none => Option.none
  else Option.none

/-- Pattern 3, `self\.__next_f\.push\(\[(.*?)\]\)` with `re.DOTALL`: the lazy
capture runs to the first occurrence of `])` after the literal prefix. -/
def step3 (l : List Char) : Option (List Char × List Char) :=
  if listStarts "self.__next_f.push([".data l then
    let r := l.drop 20
    match findSub "])".data r with
    | some i => some (r.take i, r.drop (i + 2))
    | Option.none => Option.none
  else Option.none

/-- All matches of pattern 1 in the HTML. -/
def findall1 (html : List Char) : List (List Char) :=
  scanFindall step1 (html.length + 1) html

/-- All matches of pattern 2 in the HTML. -/
def findall2 (html : List Char) : List (List Char) :=
  scanFindall step2 (html.length + 1) html

/-- All matches of pattern 3 in the HTML. -/
def findall3 (html : List Char) : List (List Char) :=
  scanFindall step3 (html.length + 1) html

/-- `extract_nextjs_json_data` (lines 101-136): for each pattern in order,
for each of its matches in order, extend the accumulator with the decode
results of the match (`process_match_string` never raises, so the
`try`/`except` around it never fires). -/
def extract_nextjs_json_data (html : List Char) : List PyVal :=
  [findall1 html, findall2 html, findall3 html].foldl
    (fun acc ms => ms.foldl (fun a m => a ++ process_match_string m) acc) []

/-! ## Manual (fallback) extraction pass (src/main.py lines 200-246) -/

/-- One match attempt of `<script[^>]*>(.*?self\.__next_f\.push.*?)</script>`
(with `re.DOTALL`): after `<script`, the greedy `[^>]*` runs to the first
`>`; the capture then extends to the first `</script>` that follows the
first occurrence of the push marker. -/
def scriptStep (l : List Char) : Option (List Char × List Char) :=
  if listStarts "<script".data l then
    let r := l.drop 7
    let attrs := r.takeWhile (fun c => c ≠ '>')
    let r2 := r.drop attrs.length
    match r2 with
    | '>' :: body =>
      match findSub "self.__next_f.push".data body with
      | some i =>
        match findSub "</script>".data (body.drop (i + 18)) with
        | some j =>
          some (body.take (i + 18 + j), body.drop (i + 18 + j + 9))
        | Option.none => Option.none
      | Option.none => Option.none
    | _ => Option.none
  else Option.none

/-- One match attempt of `self\.__next_f\.push\(\[([^\]]+)\]\)`: after the
literal prefix, `[^\]]+` runs to the character before the next `]`, and
`])` must follow. -/
def pushStep (l : List Char) : Option (List Char × List Char) :=
  if listStarts "self.__next_f.push([".data l then
    let r := l.drop 20
    let cap := r.takeWhile (fun c => c ≠ ']')
    let r2 := r.drop cap.length
    if !cap.isEmpty && listStarts "])".data r2 then some (cap, r2.drop 2)
    else Option.none
  else Option.none

/-- All matches of the script pattern in the HTML. -/
def scriptFindall (html : List Char) : List (List Char) :=
  scanFindall scriptStep (html.length + 1) html

/-- All matches of the push pattern in a script body. -/
def pushFindall (script : List Char) : List (List Char) :=
  scanFindall pushStep (script.length + 1) script

/-- One match attempt of `re.search(r'(\d+),"(b:\[.*\])"', push_match)` at a
given position: a maximal digit run followed by the literal `,"b:[`, then
the greedy `.*\]"` — without `re.DOTALL` the dot stops at a newline, so
group 2 ends at the last `]` of the current line that is directly followed
by `"`. -/
def partsTry (l : List Char) : Option (List Char) :=
  let ds := l.takeWhile Char.isDigit
  if ds.isEmpty then Option.none
  else
    let r := l.drop ds.length
    if listStarts ",\"b:[".data r then
      let tail := r.drop 5
      let line := tail.takeWhile (fun c => c ≠ '\n')
      match rfindSub "]\"".data line with
      | some i => some ("b:[".data ++ line.take i ++ [']'])
      | Option.none => Option.none
    else Option.none

/-- `re.search` for the parts pattern: first position at which it matches,
returning capture group 2. -/
def partsSearch : Nat → List Char → Option (List Char)
  | 0, _ => Option.none
  | _ + 1, [] => Option.none
  | fuel + 1, l =>
    match partsTry l with
    | some g => some g
    | Option.none => partsSearch fuel l.tail

/-- Body of the inner loop of `extract_with_manual_parsing` (lines 213-244):
when the parts pattern matches, decode its group 2 as a `b:` payload;
otherwise parse `[push_match]` and decode a `b:`-prefixed element 1.
Both branches append `parsed[3]` unconditionally (no truthiness filter and
no list flattening, unlike the primary pass). -/
def manualPushResult (push : List Char) : List PyVal :=
  match partsSearch (push.length + 1) push with
  | some json_part =>
    if listStarts "b:".data json_part then
      match json_loads (json_part.drop 2) with
      | some (.list parsed) =>
        if parsed.length ≥ 4 then
          match parsed.get? 3 with
          | some v => [v]
          | Option.none => []
        else []
      | _ => []
    else []
  | Option.none =>
    match json_loads ('[' :: (push ++ [']'])) with
    | some (.list parsed_array) =>
      if parsed_array.length ≥ 2 then
        match parsed_array.get? 1 with
        | some (.str json_string) =>
          if listStarts "b:".data json_string then
            match json_loads (json_string.drop 2) with
            | some (.list parsed) =>
              if parsed.length ≥ 4 then
                match parsed.get? 3 with
                | some v => [v]
                | Option.none => []
              else []
            | _ => []
          else []
        | _ => []
      else []
    | _ => []

/-- `extract_with_manual_parsing` (lines 200-246): locate script bodies
containing the push marker, then push-call argument lists inside each,
and decode each one. -/
def extract_with_manual_parsing (html : List Char) : List PyVal :=
  (scriptFindall html).foldl
    (fun acc script =>
      (pushFindall script).foldl (fun a p => a ++ manualPushResult p) acc) []

/-! ## Selector and orchestration (src/main.py lines 248-269) -/

/-- The selection loop of `extract_course_data_specifically` (lines 257-269):
return the first dict that has both `slug` and `content` keys at top level,
or whose `content` is a dict with a dict `content` member containing a
`slug` or `title` key; `None` when no candidate qualifies. -/
def find_course_record : List PyVal → Option PyVal
  | [] => Option.none
  | data :: rest =>
    match data with
    | .dict kvs =>
      if hasKey kvs "slug".data && hasKey kvs "content".data then some (.dict kvs)
      else
        match lookupKey kvs "content".data with
        | some (.dict ckvs) =>
          match lookupKey ckvs "content".data with
          | some (.dict ikvs) =>
            if hasKey ikvs "slug".data || hasKey ikvs "title".data then
              some (.dict kvs)
            else find_course_record rest
          | _ => find_course_record rest
        | _ => find_course_record rest
    | _ => find_course_record rest

/-- `extract_course_data_specifically` (lines 248-269): run the primary pass;
when it yields no candidates, run the manual pass instead; then select. -/
def extract_course_data_specifically (html : List Char) : Option PyVal :=
  let all_data := extract_nextjs_json_data html
  let all_data :=
    if all_data.isEmpty then extract_with_manual_parsing html else all_data
  find_course_record all_data

/-! ## Course structure simplifier (src/main.py lines 271-318) -/

/-- The initial `simplified` dict of line 281: note the empty-string
defaults (the `'Unknown'` defaults apply only inside the guarded branch). -/
def defaultSimplified : PyVal :=
  .dict [("title".data, pstr ""), ("slug".data, pstr ""),
         ("modules".data, .list [])]

/-- Body of the inner lesson loop (lines 304-314): entries whose `type` is
`'LESSON'` and that carry a `data` member are turned into lesson dicts and
appended; `.get` on a non-dict entry raises `AttributeError`. -/
def lessonStep (acc : List PyVal) (lesson_item : PyVal) :
    Except PyErr (List PyVal) := do
  let t ← pyGet lesson_item "type".data PyVal.none
  if pyIsStr t "LESSON".data then do
    let hd ← pyInStr "data".data lesson_item
    if hd then do
      let lesson_data ← pySubscript lesson_item "data".data
      let lid ← pyGet lesson_data "id".data PyVal.none
      let luuid ← pyGet lesson_data "uuid".data PyVal.none
      let ltitle ← pyGet lesson_data "title".data (pstr "")
      let ltype ← pyGet lesson_data "type".data PyVal.none
      let lstatus ← pyGet lesson_data "status".data (pstr "ACTIVE")
      pure (acc ++ [.dict [("id".data, lid), ("uuid".data, luuid),
                          ("title".data, ltitle), ("type".data, ltype),
                          ("status".data, lstatus)]])
    else pure acc
  else pure acc

/-- Body of the outer module loop (lines 293-316): entries whose `type` is
`'MODULE'` and that carry a `data` member become module dicts whose lessons
come from the entry's own `structure` list (empty when absent). -/
def moduleStep (acc : List PyVal) (item : PyVal) : Except PyErr (List PyVal) := do
  let t ← pyGet item "type".data PyVal.none
  if pyIsStr t "MODULE".data then do
    let hd ← pyInStr "data".data item
    if hd then do
      let module_data ← pySubscript item "data".data
      let mid ← pyGet module_data "id".data PyVal.none
      let muuid ← pyGet module_data "uuid".data PyVal.none
      let mtitle ← pyGet module_data "title".data (pstr "")
      let hs ← pyInStr "structure".data module_data
      let lessons ← if hs then do
          let sv ← pySubscript module_data "structure".data
          let litems ← pyIter sv
          litems.foldlM lessonStep []
        else pure []
      pure (acc ++ [.dict [("id".data, mid), ("uuid".data, muuid),
                          ("title".data, mtitle),
                          ("lessons".data, .list lessons)]])
    else pure acc
  else pure acc

/-- `simplify_course_data` (lines 271-318).  The guard
`'content' in course_data and 'content' in course_data['content']` is
evaluated with Python `in` semantics, so an ill-typed `content` value
raises (`TypeError` on scalars) instead of falling through. -/
def simplify_course_data (course_data : PyVal) : Except PyErr PyVal := do
  let c1 ← pyInStr "content".data course_data
  if c1 then do
    let cv ← pySubscript course_data "content".data
    let c2 ← pyInStr "content".data cv
    if c2 then do
      let content ← pySubscript cv "content".data
      let title ← pyGet content "title".data (pstr "Unknown")
      let slug ← pyGet content "slug".data (pstr "Unknown")
      let hs ← pyInStr "structure".data content
      let modules ← if hs then do
          let sv ← pySubscript content "structure".data
          let items ← pyIter sv
          items.foldlM moduleStep []
        else pure []
      pure (.dict [("title".data, title), ("slug".data, slug),
                   ("modules".data, .list modules)])
    else pure defaultSimplified
  else pure defaultSimplified

/-! ## Specification-side definitions

These re-state, in the spec's words, the properties the claims assert,
to be compared with the embedded source functions. -/

/-- The spec's selection predicate (§4.1): a dict that (a) has both `slug`
and `content` keys at top level, or (b) has a `content.content` mapping
containing `slug` or `title`. -/
def qualifiesSpec : PyVal → Bool
  | .dict kvs =>
    (hasKey kvs "slug".data && hasKey kvs "content".data) ||
    (match lookupKey kvs "content".data with
     | some (.dict ckvs) =>
       match lookupKey ckvs "content".data with
       | some (.dict ikvs) => hasKey ikvs "slug".data || hasKey ikvs "title".data
       | _ => false
     | _ => false)
  | _ => false

/-- The contribution of one decode strategy's result to the candidate
list: nothing for a missing or falsy result, the elements of a list
result, the result itself otherwise. -/
def strategyContrib : Option PyVal → List PyVal
  | some v =>
    if pyTruthy v then
      match v with
      | .list l => l
      | _ => [v]
    else []
  | Option.none => []

/-- The concatenated contributions of the three decode strategies on one
matched string, each computed independently of the others. -/
def matchContribs (m : List Char) : List PyVal :=
  strategyContrib (process_b_format m) ++ strategyContrib (process_direct_json m) ++
    strategyContrib (process_array_format m)

/-- The spec's `b:` strategy: strip the prefix, parse as a JSON array,
require length at least 4, take index 3. -/
def bFormatSpec (s : List Char) : Option PyVal :=
  if listStarts "b:".data s then
    match json_loads (s.drop 2) with
    | some (.list arr) => if 4 ≤ arr.length then arr.get? 3 else Option.none
    | _ => Option.none
  else Option.none

/-- The array-wrap strategy as the code actually behaves (the amended
claim): wrap in brackets, parse, and use element 1 only when it is a
`b:`-prefixed string, recursing into the `b:` strategy; `None` otherwise. -/
def arrayFormatSpec (s : List Char) : Option PyVal :=
  match json_loads ('[' :: (s ++ [']'])) with
  | some (.list arr) =>
    if 2 ≤ arr.length then
      match arr.get? 1 with
      | some (.str t) =>
        if listStarts "b:".data t then bFormatSpec t else Option.none
      | _ => Option.none
    else Option.none
  | _ => Option.none

/-- Is a structure entry tagged with the given type string?
(`item.get('type') == tag` in the source.) -/
def taggedAs (kvs : List (List Char × PyVal)) (t : List Char) : Bool :=
  pyIsStr ((lookupKey kvs "type".data).getD PyVal.none) t

/-- A lesson-level structure entry is well typed when it is a mapping and,
if it is a `LESSON` entry carrying `data`, that data is a mapping. -/
def wfLessonItem : PyVal → Bool
  | .dict kvs =>
    !(taggedAs kvs "LESSON".data && hasKey kvs "data".data) ||
      (match lookupKey kvs "data".data with
       | some (.dict _) => true
       | _ => false)
  | _ => false

/-- A module-level structure entry is well typed when it is a mapping and,
if it is a `MODULE` entry carrying `data`, that data is a mapping whose
`structure`, when present, is a list of well-typed lesson entries. -/
def wfModuleItem : PyVal → Bool
  | .dict kvs =>
    !(taggedAs kvs "MODULE".data && hasKey kvs "data".data) ||
      (match lookupKey kvs "data".data with
       | some (.dict md) =>
         (match lookupKey md "structure".data with
          | Option.none => true
          | some (.list litems) => litems.all wfLessonItem
          | some _ => false)
       | _ => false)
  | _ => false

/-- A course record is well typed when it is a mapping whose `content`
member, when present, is a mapping whose own `content` member, when
present, is a mapping whose `structure`, when present, is a list of
well-typed module entries. -/
def wfRecord : PyVal → Bool
  | .dict kvs =>
    match lookupKey kvs "content".data with
    | Option.none => true
    | some (.dict ckvs) =>
      match lookupKey ckvs "content".data with
      | Option.none => true
      | some (.dict ikvs) =>
        match lookupKey ikvs "structure".data with
        | Option.none => true
        | some (.list items) => items.all wfModuleItem
        | some _ => false
      | some _ => false
    | some _ => false
  | _ => false

/-- The lesson dict the simplifier builds for a `LESSON` entry carrying
mapping data; `none` for every other entry (spec §3: lessons are the
`LESSON`-tagged entries, in order). -/
def lessonOf : PyVal → Option PyVal
  | .dict kvs =>
    if taggedAs kvs "LESSON".data && hasKey kvs "data".data then
      match lookupKey kvs "data".data with
      | some (.dict ld) =>
        some (.dict [("id".data, (lookupKey ld "id".data).getD PyVal.none),
                     ("uuid".data, (lookupKey ld "uuid".data).getD PyVal.none),
                     ("title".data, (lookupKey ld "title".data).getD (pstr "")),
                     ("type".data, (lookupKey ld "type".data).getD PyVal.none),
                     ("status".data, (lookupKey ld "status".data).getD (pstr "ACTIVE"))])
      | _ => Option.none
    else Option.none
  | _ => Option.none

/-- The module dict the simplifier builds for a `MODULE` entry carrying
mapping data, with its lessons filtered from the entry's own `structure`;
`none` for every other entry (spec §3: modules are the `MODULE`-tagged
entries, in order). -/
def moduleOf : PyVal → Option PyVal
  | .dict kvs =>
    if taggedAs kvs "MODULE".data && hasKey kvs "data".data then
      match lookupKey kvs "data".data with
      | some (.dict md) =>
        some (.dict [("id".data, (lookupKey md "id".data).getD PyVal.none),
                     ("uuid".data, (lookupKey md "uuid".data).getD PyVal.none),
                     ("title".data, (lookupKey md "title".data).getD (pstr "")),
                     ("lessons".data,
                      .list (match lookupKey md "structure".data with
                             | some (.list litems) => litems.filterMap lessonOf
                             | _ => []))])
      | _ => Option.none
    else Option.none
  | _ => Option.none

/-- The fixed path `record.content.content` is absent: either the record
has no `content` key, or its value has no `content` member in the sense of
Python `in` (missing dict key, list without the string, string without the
substring). -/
def contentPathAbsent (kvs : List (List Char × PyVal)) : Prop :=
  match lookupKey kvs "content".data with
  | Option.none => True
  | some cv => pyInStr "content".data cv = Except.ok false

/-- A field of an `ok` dict result (used to inspect simplifier output). -/
def resultField (r : Except PyErr PyVal) (k : List Char) : Option PyVal :=
  match r with
  | .ok (.dict kvs) => lookupKey kvs k
  | _ => Option.none

/-- No two adjacent underscores (the invariant `re.sub(r'_+', '_', ·)`
establishes, on which the reserved-name analysis rests). -/
def noDD : List Char → Bool
  | [] => true
  | [_] => true
  | a :: b :: rest => !(a = '_' && b = '_') && noDD (b :: rest)

/-! ## Concrete fixtures -/

/-- The spec's end-to-end fixture HTML: a single push call whose string
argument is a `b:`-wrapped, escape-quoted JSON payload. -/
def fixtureHtml : List Char :=
  "self.__next_f.push([1,\"b:[0,0,0,\x7b\\\"slug\\\":\\\"x\\\",\\\"content\\\":\x7b\\\"content\\\":\x7b\\\"title\\\":\\\"Course X\\\",\\\"slug\\\":\\\"x\\\",\\\"structure\\\":[\x7b\\\"type\\\":\\\"MODULE\\\",\\\"data\\\":\x7b\\\"id\\\":1,\\\"uuid\\\":\\\"u1\\\",\\\"title\\\":\\\"Mod 1\\\",\\\"structure\\\":[\x7b\\\"type\\\":\\\"LESSON\\\",\\\"data\\\":\x7b\\\"id\\\":10,\\\"uuid\\\":\\\"u10\\\",\\\"title\\\":\\\"Lesson A\\\",\\\"type\\\":4\x7d\x7d]\x7d\x7d]\x7d\x7d\x7d]\"])".data

/-- The CourseRecord embedded in `fixtureHtml` (payload index 3 of the
decoded `b:` array). -/
def courseRecordX : PyVal :=
  .dict [("slug".data, pstr "x"),
         ("content".data,
          .dict [("content".data,
                  .dict [("title".data, pstr "Course X"),
                         ("slug".data, pstr "x"),
                         ("structure".data,
                          .list [.dict [("type".data, pstr "MODULE"),
                                        ("data".data,
                                         .dict [("id".data, .int 1),
                                                ("uuid".data, pstr "u1"),
                                                ("title".data, pstr "Mod 1"),
                                                ("structure".data,
                                                 .list [.dict [("type".data, pstr "LESSON"),
                                                               ("data".data,
                                                                .dict [("id".data, .int 10),
                                                                       ("uuid".data, pstr "u10"),
                                                                       ("title".data, pstr "Lesson A"),
                                                                       ("type".data, .int 4)])]])])]])])])]

/-- The SimplifiedCourse for the fixture: title `Course X`, slug `x`, one
module `Mod 1` with one lesson `Lesson A` of type 4. -/
def simplifiedX : PyVal :=
  .dict [("title".data, pstr "Course X"),
         ("slug".data, pstr "x"),
         ("modules".data,
          .list [.dict [("id".data, .int 1),
                        ("uuid".data, pstr "u1"),
                        ("title".data, pstr "Mod 1"),
                        ("lessons".data,
                         .list [.dict [("id".data, .int 10),
                                       ("uuid".data, pstr "u10"),
                                       ("title".data, pstr "Lesson A"),
                                       ("type".data, .int 4),
                                       ("status".data, pstr "ACTIVE")]])]])]

/-- An HTML input on which the primary pass finds a candidate. -/
def witnessHtmlPrimary : List Char := "self.__next_f.push([1,\"7\"])".data

/-- An HTML input with no push call at all. -/
def witnessHtmlEmpty : List Char := "x".data

/-- A well-typed course record whose structure mixes `MODULE`- and
`UNKNOWN`-tagged entries (exercising the simplifier's skipping). -/
def witnessRecordKvs : List (List Char × PyVal) :=
  [("content".data,
    .dict [("content".data,
            .dict [("title".data, pstr "T"),
                   ("structure".data,
                    .list [.dict [("type".data, pstr "MODULE"),
                                  ("data".data, .dict [("title".data, pstr "M")])],
                           .dict [("type".data, pstr "UNKNOWN")]])])])]

/-! ## Theorems -/

set_option maxRecDepth 10000

theorem foldl_extend_eq_join {α : Type} (f : α → List PyVal) (ms : List α)
    (acc : List PyVal) :
    ms.foldl (fun a m => a ++ f m) acc = acc ++ (ms.map f).flatten := by
  induction ms generalizing acc with
  | nil => simp
  | cons m ms ih => simp [ih]

theorem approachResult_eq (results : List PyVal) (r : Option PyVal) :
    approachResult results r = results ++ strategyContrib r := by
  cases r with
  | none => simp [approachResult, strategyContrib]
  | some v =>
    by_cases h : pyTruthy v = true <;>
      cases v <;> simp_all [approachResult, strategyContrib]

theorem process_match_string_eq : process_match_string = matchContribs := by
  funext m
  show approachResult (approachResult (approachResult [] (process_b_format m))
    (process_direct_json m)) (process_array_format m) = _
  rw [approachResult_eq, approachResult_eq, approachResult_eq]
  simp [matchContribs, List.append_assoc]

/-- Claim C7: every (framing, strategy) pair of the primary pass is
attempted and contributes independently; the candidate list is the
concatenation, over the three framings and their matches in scan order, of
the three strategies' contributions on each match (failures contribute
nothing and never affect other pairs; the function is total, so extraction
never raises past its own boundary). -/
theorem claim_C7 (html : List Char) :
    extract_nextjs_json_data html =
      ((findall1 html).map matchContribs).flatten ++
        (((findall2 html).map matchContribs).flatten ++
          ((findall3 html).map matchContribs).flatten) := by
  unfold extract_nextjs_json_data
  rw [List.foldl_cons, List.foldl_cons, List.foldl_cons, List.foldl_nil]
  rw [foldl_extend_eq_join, foldl_extend_eq_join, foldl_extend_eq_join]
  rw [process_match_string_eq]
  simp [List.append_assoc]

/-- Claim C8, counterexample: on the matched text `1,2`, wrapping in
brackets parses successfully to `[1, 2]` whose element at index 1 is the
integer 2, yet `process_array_format` returns `None` rather than that
element, because element 1 is not a `b:`-prefixed string. -/
theorem claim_C8_cx :
    json_loads "[1,2]".data = some (.list [.int 1, .int 2]) ∧
      [PyVal.int 1, PyVal.int 2].get? 1 = some (PyVal.int 2) ∧
      process_array_format "1,2".data = Option.none :=
  ⟨rfl, rfl, rfl⟩

/-- Claim C8 (amended): the array-wrap strategy wraps the text in brackets
and parses it, but takes element 1 as its result only when that element is
a `b:`-prefixed string, recursing into the `b:` strategy (strip the
prefix, parse as a JSON array of length at least 4, take index 3);
otherwise it returns `None`. -/
theorem claim_C8 (s : List Char) :
    process_array_format s = arrayFormatSpec s ∧
      process_b_format s = bFormatSpec s :=
  ⟨rfl, rfl⟩


theorem find_course_record_cons (d : PyVal) (rest : List PyVal) :
    find_course_record (d :: rest) =
      if qualifiesSpec d then some d else find_course_record rest := by
  cases d with
  | dict kvs =>
    simp only [find_course_record, qualifiesSpec]
    by_cases h1 : (hasKey kvs "slug".data && hasKey kvs "content".data) = true
    · simp [h1]
    · rw [Bool.not_eq_true] at h1
      simp only [h1, Bool.false_eq_true, if_false, Bool.false_or]
      cases hc : lookupKey kvs "content".data with
      | none => simp [hc]
      | some cv =>
        cases cv with
        | dict ckvs =>
          cases hcc : lookupKey ckvs "content".data with
          | none => simp [hc, hcc]
          | some icv =>
            cases icv with
            | dict ikvs =>
              by_cases h2 : (hasKey ikvs "slug".data || hasKey ikvs "title".data) = true
              · simp [hc, hcc, h2]
              · rw [Bool.not_eq_true] at h2
                simp [hc, hcc, h2]
            | none => simp [hc, hcc]
            | bool b => simp [hc, hcc]
            | int n => simp [hc, hcc]
            | str s => simp [hc, hcc]
            | list l => simp [hc, hcc]
        | none => simp [hc]
        | bool b => simp [hc]
        | int n => simp [hc]
        | str s => simp [hc]
        | list l => simp [hc]
  | none => simp [find_course_record, qualifiesSpec]
  | bool b => simp [find_course_record, qualifiesSpec]
  | int n => simp [find_course_record, qualifiesSpec]
  | str s => simp [find_course_record, qualifiesSpec]
  | list l => simp [find_course_record, qualifiesSpec]

theorem find_course_record_eq (l : List PyVal) :
    find_course_record l = l.find? qualifiesSpec := by
  induction l with
  | nil => rfl
  | cons d rest ih =>
    rw [find_course_record_cons, List.find?_cons, ih]
    by_cases h : qualifiesSpec d = true <;> simp [h]

/-- Claim C4: the selector returns the first candidate dict that (a) has
both `slug` and `content` keys at top level, or (b) has a `content.content`
mapping containing `slug` or `title` (first match wins); when no candidate
qualifies it returns `None`, not an error. -/
theorem claim_C4 (l : List PyVal) :
    find_course_record l = l.find? qualifiesSpec ∧
      ((∀ v ∈ l, qualifiesSpec v = false) → find_course_record l = Option.none) := by
  refine ⟨find_course_record_eq l, fun h => ?_⟩
  rw [find_course_record_eq]
  exact List.find?_eq_none.mpr (fun v hv => by simp [h v hv])

/-- Witness for claim C4 at a concrete candidate list with no qualifying
entry. -/
theorem claim_C4_witness : find_course_record [PyVal.int 3] = Option.none :=
  (claim_C4 [PyVal.int 3]).2 (by decide)

/-- Claim C5: the manual fallback's results are used exactly when the
primary regex pass yields zero candidates; otherwise selection runs on the
primary pass's candidates and the manual results are never used. -/
theorem claim_C5 (html : List Char) :
    (extract_nextjs_json_data html ≠ [] →
        extract_course_data_specifically html =
          find_course_record (extract_nextjs_json_data html)) ∧
      (extract_nextjs_json_data html = [] →
        extract_course_data_specifically html =
          find_course_record (extract_with_manual_parsing html)) := by
  constructor
  · intro h
    cases hE : extract_nextjs_json_data html with
    | nil => exact absurd hE h
    | cons a t => simp [extract_course_data_specifically, hE]
  · intro h
    simp [extract_course_data_specifically, h]

/-- Witness for claim C5: a push call the primary pass decodes, and an
input with no push call at all (primary pass empty, manual fallback used). -/
theorem claim_C5_witness :
    (extract_course_data_specifically witnessHtmlPrimary =
        find_course_record (extract_nextjs_json_data witnessHtmlPrimary)) ∧
      (extract_course_data_specifically witnessHtmlEmpty =
        find_course_record (extract_with_manual_parsing witnessHtmlEmpty)) :=
  ⟨(claim_C5 witnessHtmlPrimary).1 (by
      intro h
      rw [show extract_nextjs_json_data witnessHtmlPrimary = [PyVal.int 7] from rfl] at h
      exact List.cons_ne_nil _ _ h),
    (claim_C5 witnessHtmlEmpty).2 rfl⟩

/-- Claim C1: on the fixture HTML consisting of the single push call,
extraction yields the embedded CourseRecord and simplification yields the
SimplifiedCourse with title `Course X`, slug `x`, exactly one module
`Mod 1` containing exactly one lesson `Lesson A` of type 4. -/
theorem claim_C1 :
    extract_course_data_specifically fixtureHtml = some courseRecordX ∧
      simplify_course_data courseRecordX = Except.ok simplifiedX :=
  ⟨rfl, rfl⟩

theorem mem_of_mem_pyStrip {p : Char → Bool} {l : List Char} {c : Char}
    (h : c ∈ pyStrip p l) : c ∈ l := by
  unfold pyStrip at h
  rw [List.mem_reverse] at h
  have h2 := (List.dropWhile_sublist p).mem h
  rw [List.mem_reverse] at h2
  exact (List.dropWhile_sublist p).mem h2

theorem mem_of_mem_collapseUnd : ∀ (l : List Char) (c : Char), c ∈ collapseUnd l → c ∈ l
  | [], c, h => by rw [collapseUnd] at h; exact h
  | [a], c, h => by rw [collapseUnd] at h; exact h
  | a :: b :: rest, c, h => by
    rw [collapseUnd] at h
    by_cases hab : (a = '_' && b = '_') = true
    · rw [if_pos hab] at h
      exact List.mem_cons_of_mem a (mem_of_mem_collapseUnd (b :: rest) c h)
    · rw [if_neg hab] at h
      rcases List.mem_cons.mp h with h1 | h2
      · exact h1 ▸ List.mem_cons_self c (b :: rest)
      · exact List.mem_cons_of_mem a (mem_of_mem_collapseUnd (b :: rest) c h2)

theorem mem_of_mem_rstripUnd {l : List Char} {c : Char} (h : c ∈ rstripUnd l) : c ∈ l := by
  unfold rstripUnd at h
  rw [List.mem_reverse] at h
  have h2 := (List.dropWhile_sublist (fun c => c = '_')).mem h
  rwa [List.mem_reverse] at h2

theorem length_rstripUnd_le (l : List Char) : (rstripUnd l).length ≤ l.length := by
  unfold rstripUnd
  rw [List.length_reverse]
  calc (l.reverse.dropWhile (fun c => c = '_')).length
      ≤ l.reverse.length := (List.dropWhile_sublist (fun c => c = '_')).length_le
    _ = l.length := List.length_reverse l

theorem invalid_free_stage1 (f : List Char) {c : Char}
    (h : c ∈ sanitizeStage1 f) : invalidChar c = false := by
  rcases List.mem_map.mp h with ⟨a, _, rfl⟩
  by_cases ha : invalidChar a = true
  · simp only [ha, if_true]
    decide
  · rw [Bool.not_eq_true] at ha
    simp only [ha, Bool.false_eq_true, if_false]

theorem invalid_free_stage4 (f : List Char) {c : Char}
    (h : c ∈ sanitizeStage4 f) : invalidChar c = false := by
  unfold sanitizeStage4 at h
  have h3 : c = '_' ∨ c ∈ sanitizeStage3 f := by
    by_cases hr : isReservedName (sanitizeStage3 f) = true
    · rw [if_pos hr] at h
      exact List.mem_cons.mp h
    · rw [if_neg hr] at h
      exact Or.inr h
  rcases h3 with rfl | h3
  · decide
  · exact invalid_free_stage1 f
      (mem_of_mem_pyStrip (mem_of_mem_collapseUnd (sanitizeStage2 f) c h3))

theorem sanitize_trunc_invalid_free (f4 : List Char) (ml : Nat)
    (hf4 : ∀ c ∈ f4, invalidChar c = false) :
    ∀ c ∈ (if (if f4.length > ml then rstripUnd (f4.take ml) else f4).isEmpty then
        "untitled".data
      else if f4.length > ml then rstripUnd (f4.take ml) else f4),
      invalidChar c = false := by
  intro c hc
  by_cases htr : f4.length > ml
  · rw [if_pos htr] at hc
    by_cases he : (rstripUnd (f4.take ml)).isEmpty = true
    · rw [if_pos he] at hc
      exact (by decide : ∀ c ∈ "untitled".data, invalidChar c = false) c hc
    · rw [if_neg he] at hc
      exact hf4 c ((List.take_sublist ml f4).mem (mem_of_mem_rstripUnd hc))
  · rw [if_neg htr] at hc
    by_cases he : f4.isEmpty = true
    · rw [if_pos he] at hc
      exact (by decide : ∀ c ∈ "untitled".data, invalidChar c = false) c hc
    · rw [if_neg he] at hc
      exact hf4 c hc

theorem sanitize_no_invalid (f : List Char) (ml : Nat) :
    ∀ c ∈ sanitize_filename f ml, invalidChar c = false :=
  sanitize_trunc_invalid_free (sanitizeStage4 f) ml (fun _ h => invalid_free_stage4 f h)

theorem sanitize_length_le (f : List Char) (ml : Nat) (h : 8 ≤ ml) :
    (sanitize_filename f ml).length ≤ ml := by
  simp only [sanitize_filename]
  by_cases htr : (sanitizeStage4 f).length > ml
  · rw [if_pos htr]
    by_cases he : (rstripUnd ((sanitizeStage4 f).take ml)).isEmpty = true
    · rw [if_pos he]
      simpa using h
    · rw [if_neg he]
      calc (rstripUnd ((sanitizeStage4 f).take ml)).length
          ≤ ((sanitizeStage4 f).take ml).length := length_rstripUnd_le _
        _ ≤ ml := by rw [List.length_take]; exact Nat.min_le_left _ _
  · rw [if_neg htr]
    by_cases he : (sanitizeStage4 f).isEmpty = true
    · rw [if_pos he]
      simpa using h
    · rw [if_neg he]
      omega

theorem noDD_tail {a : Char} {l : List Char} (h : noDD (a :: l) = true) : noDD l = true := by
  cases l with
  | nil => rfl
  | cons b t =>
    rw [noDD, Bool.and_eq_true] at h
    exact h.2

theorem noDD_append_right : ∀ (l r : List Char), noDD (l ++ r) = true → noDD l = true
  | [], _, _ => rfl
  | [_], _, _ => rfl
  | a :: b :: t, r, h => by
    rw [noDD]
    have h2 : noDD (a :: b :: (t ++ r)) = true := h
    rw [noDD, Bool.and_eq_true] at h2
    rw [Bool.and_eq_true]
    exact ⟨h2.1, noDD_append_right (b :: t) r h2.2⟩

theorem noDD_append_left : ∀ (l r : List Char), noDD (l ++ r) = true → noDD r = true
  | [], _, h => h
  | _ :: t, r, h => noDD_append_left t r (noDD_tail h)

theorem noDD_of_not_mem : ∀ {l : List Char}, '_' ∉ l → noDD l = true
  | [], _ => rfl
  | [_], _ => rfl
  | a :: b :: t, h => by
    rw [noDD, Bool.and_eq_true]
    refine ⟨?_, noDD_of_not_mem (fun hx => h (List.mem_cons_of_mem a hx))⟩
    have ha : a ≠ '_' := fun hx => h (hx ▸ List.mem_cons_self a (b :: t))
    simp [ha]

theorem collapse_cons_head : ∀ (l : List Char) (b : Char), ∃ t, collapseUnd (b :: l) = b :: t
  | [], b => ⟨[], rfl⟩
  | c :: t, b => by
    rw [collapseUnd]
    by_cases h : (b = '_' && c = '_') = true
    · rw [if_pos h]
      obtain ⟨t2, ht2⟩ := collapse_cons_head t c
      rw [Bool.and_eq_true] at h
      obtain ⟨hb, hcu⟩ := h
      rw [decide_eq_true_eq] at hb hcu
      exact ⟨t2, by rw [ht2, hb, hcu]⟩
    · rw [if_neg h]
      exact ⟨collapseUnd (c :: t), rfl⟩

theorem noDD_collapseUnd : ∀ (l : List Char), noDD (collapseUnd l) = true
  | [] => rfl
  | [_] => rfl
  | a :: b :: rest => by
    rw [collapseUnd]
    by_cases h : (a = '_' && b = '_') = true
    · rw [if_pos h]
      exact noDD_collapseUnd (b :: rest)
    · rw [if_neg h]
      obtain ⟨t, ht⟩ := collapse_cons_head rest b
      rw [ht, noDD, Bool.and_eq_true]
      refine ⟨by rw [Bool.not_eq_true] at h; simp [h], ?_⟩
      rw [← ht]
      exact noDD_collapseUnd (b :: rest)

theorem reservedNames_facts : ∀ u ∈ reservedNames, u.length ≤ 4 ∧ '_' ∉ u := by decide

theorem isReservedName_props {s : List Char} (h : isReservedName s = true) :
    s.length ≤ 4 ∧ '_' ∉ s := by
  have hm : (s.map Char.toUpper) ∈ reservedNames := of_decide_eq_true h
  obtain ⟨h1, h2⟩ := reservedNames_facts _ hm
  refine ⟨by simpa using h1, fun hu => h2 ?_⟩
  have hup : Char.toUpper '_' = '_' := by decide
  exact hup ▸ List.mem_map_of_mem Char.toUpper hu

theorem rstripUnd_decomp (l : List Char) :
    ∃ w, l = rstripUnd l ++ w ∧ ∀ c ∈ w, c = '_' := by
  refine ⟨(l.reverse.takeWhile (fun c => c = '_')).reverse, ?_, ?_⟩
  · have h1 : l.reverse.takeWhile (fun c => c = '_') ++
        l.reverse.dropWhile (fun c => c = '_') = l.reverse :=
      List.takeWhile_append_dropWhile (fun c => c = '_') l.reverse
    calc l = l.reverse.reverse := (List.reverse_reverse l).symm
      _ = (l.reverse.takeWhile (fun c => c = '_') ++
            l.reverse.dropWhile (fun c => c = '_')).reverse := by rw [h1]
      _ = (l.reverse.dropWhile (fun c => c = '_')).reverse ++
            (l.reverse.takeWhile (fun c => c = '_')).reverse := by
            rw [List.reverse_append]
      _ = rstripUnd l ++ (l.reverse.takeWhile (fun c => c = '_')).reverse := rfl
  · intro c hc
    rw [List.mem_reverse] at hc
    simpa using List.mem_takeWhile_imp hc

theorem step5_not_reserved (f4 : List Char) (ml : Nat) (h6 : 6 ≤ ml)
    (hnoDD : noDD f4 = true) (hf4 : isReservedName f4 = false) :
    isReservedName
      (if (if f4.length > ml then rstripUnd (f4.take ml) else f4).isEmpty then
        "untitled".data
      else if f4.length > ml then rstripUnd (f4.take ml) else f4) = false := by
  by_cases htr : f4.length > ml
  · rw [if_pos htr]
    by_cases he : (rstripUnd (f4.take ml)).isEmpty = true
    · rw [if_pos he]
      decide
    · rw [if_neg he]
      by_contra hx
      rw [Bool.not_eq_false] at hx
      obtain ⟨hlen, hnu⟩ := isReservedName_props hx
      obtain ⟨w, hdec, hw⟩ := rstripUnd_decomp (f4.take ml)
      have hlentake : (f4.take ml).length = ml := by
        rw [List.length_take]
        exact Nat.min_eq_left (Nat.le_of_lt htr)
      have hnoDDtake : noDD (f4.take ml) = true := by
        have h0 : f4.take ml ++ f4.drop ml = f4 := List.take_append_drop ml f4
        exact noDD_append_right _ _ (by rw [h0]; exact hnoDD)
      have hwlen : w.length ≤ 1 := by
        by_contra hwl
        rw [Nat.not_le] at hwl
        match w, hwl with
        | c1 :: c2 :: t, _ =>
          have hc1 : c1 = '_' := hw c1 (List.mem_cons_self c1 (c2 :: t))
          have hc2 : c2 = '_' := hw c2 (List.mem_cons_of_mem c1 (List.mem_cons_self c2 t))
          have hsuf : noDD (c1 :: c2 :: t) = true := by
            rw [hdec] at hnoDDtake
            exact noDD_append_left _ _ hnoDDtake
          rw [noDD, hc1, hc2] at hsuf
          simp at hsuf
      have hml : ml = (rstripUnd (f4.take ml)).length + w.length := by
        have hcg := congrArg List.length hdec
        rw [hlentake, List.length_append] at hcg
        exact hcg
      omega
  · rw [if_neg htr]
    by_cases he : f4.isEmpty = true
    · rw [if_pos he]
      decide
    · rw [if_neg he]
      exact hf4

theorem noDD_stage4 (f : List Char) : noDD (sanitizeStage4 f) = true := by
  unfold sanitizeStage4
  by_cases hr : isReservedName (sanitizeStage3 f) = true
  · rw [if_pos hr]
    obtain ⟨_, hnu⟩ := isReservedName_props hr
    cases h3 : sanitizeStage3 f with
    | nil => rfl
    | cons b t =>
      rw [noDD, Bool.and_eq_true]
      refine ⟨?_, ?_⟩
      · have hb : b ≠ '_' := by
          intro hx
          rw [h3] at hnu
          exact hnu (hx ▸ List.mem_cons_self b t)
        simp [hb]
      · rw [← h3]
        exact noDD_of_not_mem hnu
  · rw [if_neg hr]
    exact noDD_collapseUnd _

theorem not_reserved_stage4 (f : List Char) : isReservedName (sanitizeStage4 f) = false := by
  unfold sanitizeStage4
  by_cases hr : isReservedName (sanitizeStage3 f) = true
  · rw [if_pos hr]
    by_contra hx
    rw [Bool.not_eq_false] at hx
    exact (isReservedName_props hx).2 (List.mem_cons_self '_' (sanitizeStage3 f))
  · rw [if_neg hr]
    exact Bool.not_eq_true _ ▸ hr

theorem ebind_ok {α β : Type} (a : α) (f : α → Except PyErr β) :
    (Except.ok a >>= f : Except PyErr β) = f a := rfl

theorem epure_eq {α : Type} (a : α) : (pure a : Except PyErr α) = Except.ok a := rfl

theorem lessonStep_ok (acc : List PyVal) (li : PyVal) (h : wfLessonItem li = true) :
    lessonStep acc li = Except.ok (acc ++ (lessonOf li).toList) := by
  cases li with
  | none => simp [wfLessonItem] at h
  | bool b => simp [wfLessonItem] at h
  | int n => simp [wfLessonItem] at h
  | str s => simp [wfLessonItem] at h
  | list l => simp [wfLessonItem] at h
  | dict kvs =>
    simp only [wfLessonItem, taggedAs] at h
    simp only [lessonStep, lessonOf, taggedAs, pyGet, pyInStr, ebind_ok, epure_eq]
    by_cases ht : pyIsStr ((lookupKey kvs "type".data).getD PyVal.none) "LESSON".data = true
    · simp only [ht, if_true]
      by_cases hd : hasKey kvs "data".data = true
      · simp only [hd, if_true, Bool.and_self, ebind_ok]
        cases hdd : lookupKey kvs "data".data with
        | none => simp [hasKey, hdd] at hd
        | some dv =>
          cases dv with
          | dict ld =>
            simp only [pySubscript, hdd, ebind_ok, pyGet, epure_eq]
            simp
          | none => simp [ht, hd, hdd] at h
          | bool b => simp [ht, hd, hdd] at h
          | int n => simp [ht, hd, hdd] at h
          | str s => simp [ht, hd, hdd] at h
          | list l => simp [ht, hd, hdd] at h
      · rw [Bool.not_eq_true] at hd
        simp [hd]
    · rw [Bool.not_eq_true] at ht
      simp [ht]

theorem foldlM_lessonStep (litems : List PyVal) (h : litems.all wfLessonItem = true) :
    ∀ acc, litems.foldlM lessonStep acc = Except.ok (acc ++ litems.filterMap lessonOf) := by
  induction litems with
  | nil => intro acc; simp [epure_eq]
  | cons li rest ih =>
    intro acc
    simp only [List.all_cons, Bool.and_eq_true] at h
    rw [List.foldlM_cons, lessonStep_ok acc li h.1, ebind_ok, ih h.2]
    cases hl : lessonOf li <;> simp [List.filterMap_cons, hl]

theorem moduleStep_ok (acc : List PyVal) (item : PyVal) (h : wfModuleItem item = true) :
    moduleStep acc item = Except.ok (acc ++ (moduleOf item).toList) := by
  cases item with
  | none => simp [wfModuleItem] at h
  | bool b => simp [wfModuleItem] at h
  | int n => simp [wfModuleItem] at h
  | str s => simp [wfModuleItem] at h
  | list l => simp [wfModuleItem] at h
  | dict kvs =>
    simp only [wfModuleItem, taggedAs] at h
    simp only [moduleStep, moduleOf, taggedAs, pyGet, pyInStr, ebind_ok, epure_eq]
    by_cases ht : pyIsStr ((lookupKey kvs "type".data).getD PyVal.none) "MODULE".data = true
    · simp only [ht, if_true]
      by_cases hd : hasKey kvs "data".data = true
      · simp only [hd, if_true, Bool.and_self, ebind_ok]
        cases hdd : lookupKey kvs "data".data with
        | none => simp [hasKey, hdd] at hd
        | some dv =>
          cases dv with
          | dict md =>
            simp only [pySubscript, hdd, ebind_ok, pyGet]
            by_cases hs : hasKey md "structure".data = true
            · simp only [hs, if_true, ebind_ok]
              cases hss : lookupKey md "structure".data with
              | none => simp [hasKey, hss] at hs
              | some sv =>
                cases sv with
                | list litems =>
                  have hwf : litems.all wfLessonItem = true := by
                    simp only [ht, hd, hdd, hss] at h
                    simpa using h
                  simp only [pySubscript, hss, ebind_ok, pyIter,
                    foldlM_lessonStep litems hwf [], ebind_ok, epure_eq]
                  simp
                | none => simp [ht, hd, hdd, hss] at h
                | bool b => simp [ht, hd, hdd, hss] at h
                | int n => simp [ht, hd, hdd, hss] at h
                | str s => simp [ht, hd, hdd, hss] at h
                | dict d2 => simp [ht, hd, hdd, hss] at h
            · rw [Bool.not_eq_true] at hs
              simp only [hs, Bool.false_eq_true, if_false, epure_eq, ebind_ok]
              cases hss : lookupKey md "structure".data with
              | none => simp
              | some sv => simp [hasKey, hss] at hs
          | none => simp [ht, hd, hdd] at h
          | bool b => simp [ht, hd, hdd] at h
          | int n => simp [ht, hd, hdd] at h
          | str s => simp [ht, hd, hdd] at h
          | list l => simp [ht, hd, hdd] at h
      · rw [Bool.not_eq_true] at hd
        simp [hd]
    · rw [Bool.not_eq_true] at ht
      simp [ht]

theorem foldlM_moduleStep (items : List PyVal) (h : items.all wfModuleItem = true) :
    ∀ acc, items.foldlM moduleStep acc = Except.ok (acc ++ items.filterMap moduleOf) := by
  induction items with
  | nil => intro acc; simp [epure_eq]
  | cons item rest ih =>
    intro acc
    simp only [List.all_cons, Bool.and_eq_true] at h
    rw [List.foldlM_cons, moduleStep_ok acc item h.1, ebind_ok, ih h.2]
    cases hm : moduleOf item <;> simp [List.filterMap_cons, hm]

/-- Claim C9 (amended): for every CourseRecord whose `content.content.structure`
is a list of well-typed entries (each a mapping, with `MODULE` data a mapping
whose `structure`, when present, is a list of mappings with `LESSON` data a
mapping), the simplified modules are exactly the `MODULE`-tagged entries
carrying `data`, in order, each module's lessons exactly the `LESSON`-tagged
entries carrying `data` of its own structure, in order; all other entries are
silently skipped and simplification does not abort.  (Unrestricted, a
non-mapping entry aborts with `AttributeError`: see the counterexample.) -/
theorem claim_C9 (kvs ckvs ikvs : List (List Char × PyVal)) (items : List PyVal)
    (h1 : lookupKey kvs "content".data = some (.dict ckvs))
    (h2 : lookupKey ckvs "content".data = some (.dict ikvs))
    (h3 : lookupKey ikvs "structure".data = some (.list items))
    (h4 : items.all wfModuleItem = true) :
    simplify_course_data (.dict kvs) =
      Except.ok (.dict
        [("title".data, (lookupKey ikvs "title".data).getD (pstr "Unknown")),
         ("slug".data, (lookupKey ikvs "slug".data).getD (pstr "Unknown")),
         ("modules".data, .list (items.filterMap moduleOf))]) := by
  simp only [simplify_course_data, pyInStr, ebind_ok, hasKey, h1, h2, h3,
    Option.isSome_some, if_true, pySubscript, pyGet, pyIter, epure_eq,
    foldlM_moduleStep items h4 []]
  simp


/-- Claim C2 (amended): `simplify_course_data` returns a SimplifiedCourse for
every well-typed record (a mapping whose `content` member, when present, is a
mapping, and so on down the fixed path); it is not total on arbitrary dynamic
values — see the counterexample. -/
theorem claim_C2 (v : PyVal) (h : wfRecord v = true) :
    ∃ r, simplify_course_data v = Except.ok r := by
  cases v with
  | none => simp [wfRecord] at h
  | bool b => simp [wfRecord] at h
  | int n => simp [wfRecord] at h
  | str s => simp [wfRecord] at h
  | list l => simp [wfRecord] at h
  | dict kvs =>
    simp only [wfRecord] at h
    cases hc : lookupKey kvs "content".data with
    | none =>
      exact ⟨defaultSimplified, by
        simp [simplify_course_data, pyInStr, ebind_ok, hasKey, hc, epure_eq]⟩
    | some cv =>
      rw [hc] at h
      cases cv with
      | dict ckvs =>
        replace h : (match lookupKey ckvs "content".data with
          | Option.none => true
          | some (.dict ikvs) =>
            (match lookupKey ikvs "structure".data with
             | Option.none => true
             | some (.list items) => items.all wfModuleItem
             | some _ => false)
          | some _ => false) = true := h
        cases hcc : lookupKey ckvs "content".data with
        | none =>
          exact ⟨defaultSimplified, by
            simp [simplify_course_data, pyInStr, ebind_ok, hasKey, hc, hcc,
              pySubscript, epure_eq]⟩
        | some icv =>
          rw [hcc] at h
          cases icv with
          | dict ikvs =>
            replace h : (match lookupKey ikvs "structure".data with
              | Option.none => true
              | some (.list items) => items.all wfModuleItem
              | some _ => false) = true := h
            cases hss : lookupKey ikvs "structure".data with
            | none =>
              refine ⟨.dict
                [("title".data, (lookupKey ikvs "title".data).getD (pstr "Unknown")),
                 ("slug".data, (lookupKey ikvs "slug".data).getD (pstr "Unknown")),
                 ("modules".data, .list [])], ?_⟩
              simp only [simplify_course_data, pyInStr, ebind_ok, hasKey, hc,
                hcc, hss, Option.isSome_some, if_true, pySubscript, pyGet,
                Option.isSome_none, Bool.false_eq_true, if_false, epure_eq,
                ebind_ok]
            | some sv =>
              rw [hss] at h
              cases sv with
              | list items =>
                exact ⟨_, claim_C9 kvs ckvs ikvs items hc hcc hss h⟩
              | none => exact Bool.noConfusion (show false = true from h)
              | bool b => exact Bool.noConfusion (show false = true from h)
              | int n => exact Bool.noConfusion (show false = true from h)
              | str s => exact Bool.noConfusion (show false = true from h)
              | dict d2 => exact Bool.noConfusion (show false = true from h)
          | none => exact Bool.noConfusion (show false = true from h)
          | bool b => exact Bool.noConfusion (show false = true from h)
          | int n => exact Bool.noConfusion (show false = true from h)
          | str s => exact Bool.noConfusion (show false = true from h)
          | list l => exact Bool.noConfusion (show false = true from h)
      | none => exact Bool.noConfusion (show false = true from h)
      | bool b => exact Bool.noConfusion (show false = true from h)
      | int n => exact Bool.noConfusion (show false = true from h)
      | str s => exact Bool.noConfusion (show false = true from h)
      | list l => exact Bool.noConfusion (show false = true from h)

/-- Claim C3 (amended): whenever the fixed path `record.content.content` is
absent (no `content` key, or its value without a `content` member in Python's
`in` sense), the all-default structure is returned — with title and slug
defaulting to the empty string, not to `"Unknown"` (see the counterexample). -/
theorem claim_C3 (kvs : List (List Char × PyVal)) (h : contentPathAbsent kvs) :
    simplify_course_data (.dict kvs) = Except.ok defaultSimplified := by
  unfold contentPathAbsent at h
  cases hc : lookupKey kvs "content".data with
  | none => simp [simplify_course_data, pyInStr, ebind_ok, hasKey, hc, epure_eq]
  | some cv =>
    rw [hc] at h
    have h2 : pyInStr "content".data cv = Except.ok false := h
    cases cv with
    | dict ckvs =>
      have h3 : (lookupKey ckvs "content".data).isSome = false := by
        simpa [pyInStr, hasKey] using h2
      simp [simplify_course_data, pyInStr, ebind_ok, hasKey, hc, pySubscript,
        h3, epure_eq]
    | list l =>
      have h3 : (l.any fun x => pyIsStr x "content".data) = false := by
        simpa [pyInStr] using h2
      simp [simplify_course_data, pyInStr, ebind_ok, hasKey, hc, pySubscript,
        h3, epure_eq]
    | str s =>
      have h3 : (findSub "content".data s).isSome = false := by
        simpa [pyInStr] using h2
      simp [simplify_course_data, pyInStr, ebind_ok, hasKey, hc, pySubscript,
        h3, epure_eq]
    | none => exact absurd h2 (by simp [pyInStr])
    | bool b => exact absurd h2 (by simp [pyInStr])
    | int n => exact absurd h2 (by simp [pyInStr])

/-- Claim C2, counterexample: the record `\x7b'content': 5\x7d` is a record whose
`content` field is a scalar, and on it `simplify_course_data` raises
`TypeError` (from `'content' in course_data['content']`) instead of
returning a SimplifiedCourse. -/
theorem claim_C2_cx :
    simplify_course_data (PyVal.dict [("content".data, PyVal.int 5)]) =
      Except.error PyErr.typeError := rfl

/-- Witness for claim C2 at the empty record, which is well typed. -/
theorem claim_C2_witness :
    ∃ r, simplify_course_data (PyVal.dict []) = Except.ok r :=
  claim_C2 (PyVal.dict []) rfl

/-- Claim C3, counterexample: `simplify_course_data` applied to the empty
record returns title `""` and slug `""` (the line-281 defaults), not the
`"Unknown"` the claim states. -/
theorem claim_C3_cx :
    simplify_course_data (PyVal.dict []) = Except.ok defaultSimplified ∧
      resultField (simplify_course_data (PyVal.dict [])) "title".data =
        some (pstr "") ∧
      pstr "" ≠ pstr "Unknown" := by
  refine ⟨rfl, rfl, fun hx => ?_⟩
  injection hx with hx2
  exact absurd hx2 (by decide)

/-- Witness for claim C3 at the empty record. -/
theorem claim_C3_witness :
    simplify_course_data (PyVal.dict []) = Except.ok defaultSimplified :=
  claim_C3 [] trivial

/-- Claim C9, counterexample: a structure list containing the bare integer 5
(an entry that is not a mapping) aborts simplification with
`AttributeError` (`item.get` on a non-dict) instead of being skipped. -/
theorem claim_C9_cx :
    simplify_course_data (PyVal.dict [("content".data, PyVal.dict
      [("content".data, PyVal.dict
        [("structure".data, PyVal.list [PyVal.int 5])])])]) =
      Except.error PyErr.attributeError := rfl

/-- Witness for claim C9: a record whose structure mixes a `MODULE` entry
and an `UNKNOWN` entry; the `UNKNOWN` entry is skipped and exactly one
module (with empty lessons) is produced. -/
theorem claim_C9_witness :
    simplify_course_data (PyVal.dict witnessRecordKvs) =
      Except.ok (PyVal.dict
        [("title".data, pstr "T"),
         ("slug".data, pstr "Unknown"),
         ("modules".data, PyVal.list
           [PyVal.dict [("id".data, PyVal.none), ("uuid".data, PyVal.none),
                        ("title".data, pstr "M"),
                        ("lessons".data, PyVal.list [])]])]) :=
  claim_C9
    witnessRecordKvs
    [("content".data, PyVal.dict
        [("title".data, pstr "T"),
         ("structure".data, PyVal.list
           [PyVal.dict [("type".data, pstr "MODULE"),
                        ("data".data, PyVal.dict [("title".data, pstr "M")])],
            PyVal.dict [("type".data, pstr "UNKNOWN")]])])]
    [("title".data, pstr "T"),
     ("structure".data, PyVal.list
       [PyVal.dict [("type".data, pstr "MODULE"),
                    ("data".data, PyVal.dict [("title".data, pstr "M")])],
        PyVal.dict [("type".data, pstr "UNKNOWN")]])]
    [PyVal.dict [("type".data, pstr "MODULE"),
                 ("data".data, PyVal.dict [("title".data, pstr "M")])],
     PyVal.dict [("type".data, pstr "UNKNOWN")]]
    rfl rfl rfl rfl

/-- Claim C6, counterexample: with `max_length = 0` the empty input maps to
`"untitled"`, whose length 8 exceeds `max_length`, refuting the universal
length bound. -/
theorem claim_C6_cx :
    sanitize_filename "".data 0 = "untitled".data ∧
      ¬ (sanitize_filename "".data 0).length ≤ 0 := by
  refine ⟨by decide, by decide⟩

/-- Claim C6 (amended): the four test vectors hold; for every input and
every `max_length` the output contains none of the invalid characters; and
the length bound holds for every `max_length ≥ 8` (small bounds can be
exceeded by the `"untitled"` fallback — see the counterexample). -/
theorem claim_C6 :
    sanitize_filename "CON".data 100 = "_CON".data ∧
      sanitize_filename "a///b".data 100 = "a_b".data ∧
      sanitize_filename "  .name. ".data 100 = "name".data ∧
      sanitize_filename "".data 100 = "untitled".data ∧
      (∀ (f : List Char) (ml : Nat), ∀ c ∈ sanitize_filename f ml,
        invalidChar c = false) ∧
      (∀ (f : List Char) (ml : Nat), 8 ≤ ml →
        (sanitize_filename f ml).length ≤ ml) :=
  ⟨by decide, by decide, by decide, by decide,
    fun f ml => sanitize_no_invalid f ml,
    fun f ml h => sanitize_length_le f ml h⟩

/-- Witness for claim C6 at a concrete character and bound. -/
theorem claim_C6_witness :
    invalidChar 'x' = false ∧ (sanitize_filename "x".data 8).length ≤ 8 :=
  ⟨claim_C6.2.2.2.2.1 "x".data 100 'x' (by decide),
    claim_C6.2.2.2.2.2 "x".data 8 (by decide)⟩

/-- Claim C10, counterexample: truncation can reintroduce a reserved name:
`sanitize_filename "CONX" 3` first passes the reserved check (as `CONX`),
then truncates to exactly `CON`, which is reserved. -/
theorem claim_C10_cx :
    sanitize_filename "CONX".data 3 = "CON".data ∧
      isReservedName "CON".data = true := by
  refine ⟨by decide, by decide⟩

/-- Claim C10 (amended): for every input and every `max_length ≥ 6` the
output of `sanitize_filename` is never a reserved device name
(case-insensitively): underscore runs are collapsed before truncation, so a
truncated result that rstrips to a reserved name would force
`max_length ≤ 5`.  For `max_length ≤ 5` truncation can reintroduce one —
see the counterexample. -/
theorem claim_C10 (f : List Char) (ml : Nat) (h : 6 ≤ ml) :
    isReservedName (sanitize_filename f ml) = false :=
  step5_not_reserved (sanitizeStage4 f) ml h (noDD_stage4 f) (not_reserved_stage4 f)

/-- Witness for claim C10 at a concrete input and bound. -/
theorem claim_C10_witness :
    isReservedName (sanitize_filename "CONX".data 100) = false :=
  claim_C10 "CONX".data 100 (by decide)
